import Mathlib

/-!
Shallow embedding of the `fumbl3b/job-scraper` repository (Python).

Conventions used throughout this development:

* Naive `datetime` values used by the scrapers are modelled as an integer
  number of seconds (any fixed epoch); `timedelta.days` is floor division of
  the difference by 86400, matching Python's normalized `timedelta`.
* The `requests` HTTP layer is modelled as data the adapter receives: each
  possible response of a request is a constructor of a response type
  (`exn` for a raised transport exception, `ok` for a status code plus a
  decoded JSON body).  A paginated source is a list of responses, the `i`-th
  element being the response to the request for page `i + 1`; running past
  the end of the list models a source with no further pages.
* `dateutil.parser.isoparse(...).replace(tzinfo=None)` applied to a raw item
  is modelled by storing the parse result (`Option Int`) on the item: `none`
  models a missing field or a parse failure, `some d` the parsed naive value.
* `_strip_html` (regex machinery of the `re` library) is passed as an
  abstract function `sh : String → String`; no claim depends on its output.
* Python `str.lower` / `str.strip` are modelled by `pyLower` / `pyStrip`
  (exact for the ASCII strings the repository manipulates), and the `in`
  substring operator by `pyIn`.
-/

namespace JobScraper

/-- The `JobPosting` dataclass of `job_scraper/scrapers/base.py`, polymorphic
in the representation of the naive `datetime` field: the scraper and sorting
models use `Int` (seconds), the serialization model uses the component-wise
`DateTime` below. -/
structure JobPosting (Date : Type) where
  title : String
  company : String
  location : String
  publication_date : Date
  description : String
  url : String
deriving DecidableEq

/-- Python `str.lower()` (ASCII-faithful model). -/
def pyLower (s : String) : String :=
  ⟨s.data.map Char.toLower⟩

/-- Python `str.strip()` (whitespace strip, ASCII-faithful model). -/
def pyStrip (s : String) : String :=
  ⟨((s.data.dropWhile Char.isWhitespace).reverse.dropWhile Char.isWhitespace).reverse⟩

/-- Test that `needle` starts `hay`, on character lists. -/
def charsStartWith : List Char → List Char → Bool
  | [], _ => true
  | _ :: _, [] => false
  | a :: as, b :: bs => a == b && charsStartWith as bs

/-- Test that `needle` occurs contiguously in `hay`, on character lists. -/
def charsContain (needle : List Char) : List Char → Bool
  | [] => charsStartWith needle []
  | b :: bs => charsStartWith needle (b :: bs) || charsContain needle bs

/-- The Python `needle in hay` substring test. -/
def pyIn (needle hay : String) : Bool :=
  charsContain needle.data hay.data

/-- Model of `BaseScraper._within_days` (`job_scraper/scrapers/base.py`): `True` when
`days` is `None`, otherwise `(utcnow() - date).days < days`, where
`timedelta.days` is the floor of the difference in seconds divided by 86400. -/
def withinDays (now date : Int) (days : Option Int) : Bool :=
  match days with
  | none => true
  | some d => decide ((now - date).fdiv 86400 < d)

/-- The normalization in `cli.py` `main`:
`days = args.days if args.days > 0 else None`. -/
def cliNormalizeDays (days : Int) : Option Int :=
  if days > 0 then some days else none

/-! ## The Muse adapter (`job_scraper/scrapers/themuse_scraper.py`) -/

/-- A raw item of The Muse API response, with only the fields the scraper
reads.  `pubDate` is the modelled result of
`dateutil.parser.isoparse(job["publication_date"]).replace(tzinfo=None)`:
`none` when the key is missing or parsing raises. `locationNames` are the
`name` entries of `job["locations"]` (a missing `name` defaults to `""`). -/
structure MuseJob where
  name : String
  companyName : String
  locationNames : List String
  pubDate : Option Int
  contents : String
  landingPage : String
deriving DecidableEq

/-- The response to one `requests.get` of The Muse API: a raised transport
exception, or a status code together with the decoded body (`page_count` and
`results`). -/
inductive MuseResponse where
  | exn : MuseResponse
  | ok (statusCode : Nat) (pageCount : Nat) (results : List MuseJob) : MuseResponse
deriving DecidableEq

/-- The fixed remote-work keyword list of `TheMuseScraper.search`. -/
def remoteKeywords : List String := ["remote", "flexible"]

/-- The location test of `TheMuseScraper.search`: substring match of the
filter against any location name, or any location name containing one of the
remote keywords. -/
def museLocPass (location : String) (locNames : List String) : Bool :=
  locNames.any (fun n => pyIn (pyLower location) (pyLower n)) ||
    locNames.any (fun n => remoteKeywords.any (fun k => pyIn k (pyLower n)))

/-- Construction of a `JobPosting` from a Muse item (`TheMuseScraper.search`,
body of the item loop). -/
def museMkPosting (sh : String → String) (job : MuseJob) (d : Int) : JobPosting Int :=
  ⟨pyStrip job.name, pyStrip job.companyName, job.locationNames.headD "", d,
    sh job.contents, job.landingPage⟩

/-- The per-item filtering of `TheMuseScraper.search`: skip on date-parse
failure, skip when outside the days window, skip when a (truthy) location
filter matches neither by substring nor by remote keyword; otherwise build
the posting.  An empty-string location is falsy in Python, disabling the
filter. -/
def museFilterItem (now : Int) (location : Option String) (days : Option Int)
    (sh : String → String) (job : MuseJob) : Option (JobPosting Int) :=
  match job.pubDate with
  | none => none
  | some d =>
    if ¬ withinDays now d days then none
    else
      match location with
      | some l =>
        if l ≠ "" ∧ ¬ museLocPass l job.locationNames then none
        else some (museMkPosting sh job d)
      | none => some (museMkPosting sh job d)

/-- The postings one page's item list contributes when no cap interrupts. -/
def museItems (now : Int) (location : Option String) (days : Option Int)
    (sh : String → String) (jobs : List MuseJob) : List (JobPosting Int) :=
  jobs.filterMap (museFilterItem now location days sh)

/-- The inner `for job in jobs` loop of `TheMuseScraper.search`.  `inr`
models the early `return results` once `fetched >= max_results` (the running
`fetched` counter always equals `len(results)`); `inl` models falling off the
end of the page. -/
def musePageItems (now : Int) (location : Option String) (days : Option Int)
    (maxResults : Option Int) (sh : String → String) :
    List MuseJob → List (JobPosting Int) → Sum (List (JobPosting Int)) (List (JobPosting Int))
  | [], results => .inl results
  | job :: rest, results =>
    match museFilterItem now location days sh job with
    | none => musePageItems now location days maxResults sh rest results
    | some p =>
      let results' := results ++ [p]
      match maxResults with
      | some m =>
        if (results'.length : Int) ≥ m then .inr results'
        else musePageItems now location days maxResults sh rest results'
      | none => musePageItems now location days maxResults sh rest results'

/-- The `total_pages is not None and page > total_pages` stop condition. -/
def musePastLastPage (totalPages : Option Nat) (page : Nat) : Bool :=
  match totalPages with
  | some tp => page > tp
  | none => false

/-- The outer `while True` page loop of `TheMuseScraper.search`: stop past
the reported page count, stop (`break`, returning what was collected) on a
transport exception, a non-200 status or an empty `results` list, otherwise
run the item loop, record `page_count` after the first page, and continue
with the next page. -/
def musePages (now : Int) (location : Option String) (days : Option Int)
    (maxResults : Option Int) (sh : String → String) :
    List MuseResponse → Nat → Option Nat → List (JobPosting Int) → List (JobPosting Int)
  | [], _, _, results => results
  | resp :: rest, page, totalPages, results =>
    if musePastLastPage totalPages page then results
    else
      match resp with
      | .exn => results
      | .ok status pageCount jobs =>
        if status ≠ 200 then results
        else if jobs = [] then results
        else
          match musePageItems now location days maxResults sh jobs results with
          | .inr res => res
          | .inl results' =>
            musePages now location days maxResults sh rest (page + 1)
              (some (totalPages.getD pageCount)) results'

/-- Model of `TheMuseScraper.search`, as a function of the list of page responses the
source supplies. -/
def museSearch (now : Int) (location : Option String) (days : Option Int)
    (maxResults : Option Int) (sh : String → String)
    (pages : List MuseResponse) : List (JobPosting Int) :=
  musePages now location days maxResults sh pages 1 none []

/-! ## Remotive adapter (`job_scraper/scrapers/remotive_scraper.py`) -/

/-- A raw item of the Remotive API response. `pubDate` as in `MuseJob`. -/
structure RemotiveJob where
  title : String
  companyName : String
  url : String
  description : String
  candidateRequiredLocation : String
  pubDate : Option Int
deriving DecidableEq

/-- The response to the single `requests.get` of the Remotive API. -/
inductive RemotiveResponse where
  | exn : RemotiveResponse
  | ok (statusCode : Nat) (jobs : List RemotiveJob) : RemotiveResponse
deriving DecidableEq

/-- Posting construction of `RemotiveScraper.search` (the `location` field is
the stripped `candidate_required_location`). -/
def remotiveMkPosting (sh : String → String) (job : RemotiveJob) (d : Int) : JobPosting Int :=
  ⟨pyStrip job.title, pyStrip job.companyName, pyStrip job.candidateRequiredLocation, d,
    sh job.description, pyStrip job.url⟩

/-- The per-item filtering of `RemotiveScraper.search`: date-parse-or-skip,
days window, then a plain case-insensitive substring location filter against
the stripped `candidate_required_location` (no remote-keyword special case).
An empty-string location is falsy in Python, disabling the filter. -/
def remotiveFilterItem (now : Int) (location : Option String) (days : Option Int)
    (sh : String → String) (job : RemotiveJob) : Option (JobPosting Int) :=
  match job.pubDate with
  | none => none
  | some d =>
    if ¬ withinDays now d days then none
    else
      match location with
      | some l =>
        if l ≠ "" ∧ ¬ pyIn (pyLower l) (pyLower (pyStrip job.candidateRequiredLocation)) then
          none
        else some (remotiveMkPosting sh job d)
      | none => some (remotiveMkPosting sh job d)

/-- The postings Remotive's item list contributes when no cap interrupts. -/
def remotiveItems (now : Int) (location : Option String) (days : Option Int)
    (sh : String → String) (jobs : List RemotiveJob) : List (JobPosting Int) :=
  jobs.filterMap (remotiveFilterItem now location days sh)

/-- The `for job in jobs` loop of `RemotiveScraper.search`, with the
`len(results) >= max_results` break. -/
def remotiveLoop (now : Int) (location : Option String) (days : Option Int)
    (maxResults : Option Int) (sh : String → String) :
    List RemotiveJob → List (JobPosting Int) → List (JobPosting Int)
  | [], results => results
  | job :: rest, results =>
    match remotiveFilterItem now location days sh job with
    | none => remotiveLoop now location days maxResults sh rest results
    | some p =>
      let results' := results ++ [p]
      match maxResults with
      | some m =>
        if (results'.length : Int) ≥ m then results'
        else remotiveLoop now location days maxResults sh rest results'
      | none => remotiveLoop now location days maxResults sh rest results'

/-- Model of `RemotiveScraper.search`: one request; an exception or a non-200 status
yields `[]`, otherwise the item loop runs over the body's job list. -/
def remotiveSearch (now : Int) (location : Option String) (days : Option Int)
    (maxResults : Option Int) (sh : String → String)
    (resp : RemotiveResponse) : List (JobPosting Int) :=
  match resp with
  | .exn => []
  | .ok status jobs =>
    if status ≠ 200 then []
    else remotiveLoop now location days maxResults sh jobs []

/-- A response on which `TheMuseScraper.search` hits its error-handling
branches: a transport exception, or a non-200 status. -/
def museFailing : MuseResponse → Bool
  | .exn => true
  | .ok status _ _ => status != 200

/-! ## Adapter registry (`job_scraper/__init__.py`, `scrapers/__init__.py`) -/

/-- The four registered scraper classes. -/
inductive ScraperClass where
  | themuse : ScraperClass
  | indeed : ScraperClass
  | linkedin : ScraperClass
  | remotive : ScraperClass
deriving DecidableEq

/-- The `SCRAPERS` registry dictionary, in its (Python 3.7+ insertion-order)
key order. -/
def SCRAPERS : List (String × ScraperClass) :=
  [("themuse", ScraperClass.themuse), ("indeed", ScraperClass.indeed),
   ("linkedin", ScraperClass.linkedin), ("remotive", ScraperClass.remotive)]

/-- Model of `get_scraper` (`job_scraper/__init__.py`): lower-case the identifier,
raise `KeyError` with a message listing the registered sites when unknown,
otherwise instantiate the registered class. -/
def get_scraper (siteName : String) : Except String ScraperClass :=
  let site := pyLower siteName
  match SCRAPERS.lookup site with
  | some cls => Except.ok cls
  | none =>
    Except.error ("Unknown site '" ++ siteName ++ "'. Available sites: " ++
      String.intercalate ", " (SCRAPERS.map Prod.fst))

/-! ## Unsupported adapters (`indeed_scraper.py`, `linkedin_scraper.py`) -/

/-- Message of the `NotImplementedError` raised by `IndeedScraper.search`. -/
def indeedMessage : String :=
  "Indeed scraping is not implemented. Indeed restricts scraping; consider using their official API or third‑party services."

/-- Message of the `NotImplementedError` raised by `LinkedInScraper.search`. -/
def linkedinMessage : String :=
  "LinkedIn scraping is not implemented. LinkedIn terms of service prohibit automated scraping; please use their official API or other tools."

/-- Model of `IndeedScraper.search`: raises `NotImplementedError` unconditionally.
The unused `fetch` argument stands for whatever network capability the
environment provides; the body never touches it. -/
def indeedSearch {Net : Type} (_fetch : Net) (_query : String) (_location : Option String)
    (_days : Option Int) (_maxResults : Option Int) : Except String (List (JobPosting Int)) :=
  Except.error indeedMessage

/-- Model of `LinkedInScraper.search`: raises `NotImplementedError` unconditionally. -/
def linkedinSearch {Net : Type} (_fetch : Net) (_query : String) (_location : Option String)
    (_days : Option Int) (_maxResults : Option Int) : Except String (List (JobPosting Int)) :=
  Except.error linkedinMessage

/-! ## Orchestrator sort (`cli.py` `main`) -/

/-- Model of `jobs.sort(key=lambda j: j.publication_date, reverse=True)`: a stable
sort placing larger publication dates first (Python's `list.sort` is stable,
also under `reverse=True`). -/
def sortJobsDesc (jobs : List (JobPosting Int)) : List (JobPosting Int) :=
  List.insertionSort (fun a b => b.publication_date ≤ a.publication_date) jobs

instance : IsTotal (JobPosting Int) (fun a b => b.publication_date ≤ a.publication_date) :=
  ⟨fun a b => le_total b.publication_date a.publication_date⟩

instance : IsTrans (JobPosting Int) (fun a b => b.publication_date ≤ a.publication_date) :=
  ⟨fun _ _ _ h1 h2 => le_trans h2 h1⟩

/-! ## Naive datetimes by components, `isoformat` and `isoparse` (C4) -/

/-- A naive `datetime.datetime` by components (no timezone, as the scrapers
drop `tzinfo`). -/
structure DateTime where
  year : Nat
  month : Nat
  day : Nat
  hour : Nat
  minute : Nat
  second : Nat
  microsecond : Nat
deriving DecidableEq

/-- The ranges Python's `datetime` constructor enforces. -/
def DateTime.Valid (t : DateTime) : Prop :=
  1 ≤ t.year ∧ t.year ≤ 9999 ∧ 1 ≤ t.month ∧ t.month ≤ 12 ∧ 1 ≤ t.day ∧ t.day ≤ 31 ∧
    t.hour ≤ 23 ∧ t.minute ≤ 59 ∧ t.second ≤ 59 ∧ t.microsecond ≤ 999999

instance (t : DateTime) : Decidable t.Valid := by
  unfold DateTime.Valid; infer_instance

/-- Two-digit zero-padded decimal rendering. -/
def pad2 (n : Nat) : List Char :=
  [Nat.digitChar (n / 10 % 10), Nat.digitChar (n % 10)]

/-- Four-digit zero-padded decimal rendering. -/
def pad4 (n : Nat) : List Char :=
  [Nat.digitChar (n / 1000 % 10), Nat.digitChar (n / 100 % 10),
   Nat.digitChar (n / 10 % 10), Nat.digitChar (n % 10)]

/-- Six-digit zero-padded decimal rendering. -/
def pad6 (n : Nat) : List Char :=
  [Nat.digitChar (n / 100000 % 10), Nat.digitChar (n / 10000 % 10),
   Nat.digitChar (n / 1000 % 10), Nat.digitChar (n / 100 % 10),
   Nat.digitChar (n / 10 % 10), Nat.digitChar (n % 10)]

/-- Model of `datetime.isoformat()` on a naive value:
`YYYY-MM-DDTHH:MM:SS`, with `.ffffff` appended iff the microsecond field is
nonzero (the default `timespec='auto'`). -/
def DateTime.isoformat (t : DateTime) : String :=
  ⟨pad4 t.year ++ '-' :: pad2 t.month ++ '-' :: pad2 t.day ++ 'T' :: pad2 t.hour ++
    ':' :: pad2 t.minute ++ ':' :: pad2 t.second ++
    (if t.microsecond = 0 then [] else '.' :: pad6 t.microsecond)⟩

/-- Decimal digit value of a character. -/
def digitVal (c : Char) : Option Nat :=
  if c.isDigit then some (c.toNat - 48) else none

/-- Value of two decimal digit characters. -/
def val2 (a b : Char) : Option Nat :=
  match digitVal a, digitVal b with
  | some x, some y => some (10 * x + y)
  | _, _ => none

/-- Value of four decimal digit characters. -/
def val4 (a b c d : Char) : Option Nat :=
  match val2 a b, val2 c d with
  | some x, some y => some (100 * x + y)
  | _, _ => none

/-- Value of six decimal digit characters. -/
def val6 (a b c d e f : Char) : Option Nat :=
  match val2 a b, val2 c d, val2 e f with
  | some x, some y, some z => some (10000 * x + 100 * y + z)
  | _, _, _ => none

/-- Modelled from the spec: `dateutil.parser.isoparse` (an external library
function, not part of `src/`) restricted to the shapes `datetime.isoformat`
emits for naive values: `YYYY-MM-DDTHH:MM:SS` optionally followed by
`.ffffff`. -/
def isoparseChars : List Char → Option DateTime
  | y1 :: y2 :: y3 :: y4 :: sep1 :: mo1 :: mo2 :: sep2 :: d1 :: d2 :: sep3 :: h1 :: h2 ::
      sep4 :: mi1 :: mi2 :: sep5 :: s1 :: s2 :: rest =>
    if sep1 = '-' ∧ sep2 = '-' ∧ sep3 = 'T' ∧ sep4 = ':' ∧ sep5 = ':' then
      match val4 y1 y2 y3 y4, val2 mo1 mo2, val2 d1 d2, val2 h1 h2, val2 mi1 mi2,
          val2 s1 s2 with
      | some y, some mo, some d, some h, some mi, some s =>
        match rest with
        | [] => some ⟨y, mo, d, h, mi, s, 0⟩
        | sep6 :: u1 :: u2 :: u3 :: u4 :: u5 :: u6 :: [] =>
          if sep6 = '.' then
            match val6 u1 u2 u3 u4 u5 u6 with
            | some u => some ⟨y, mo, d, h, mi, s, u⟩
            | none => none
          else none
        | _ => none
      | _, _, _, _, _, _ => none
    else none
  | _ => none

/-- Model of `isoparse` on strings. -/
def isoparse (s : String) : Option DateTime :=
  isoparseChars s.data

/-! ## Serialization (`JobPosting.to_dict`) and the output sink (`cli.py`) -/

/-- The flat key-value form produced by `JobPosting.to_dict`: every field a
plain string, the publication date rendered with `isoformat()`. -/
structure FlatPosting where
  title : String
  company : String
  location : String
  publication_date : String
  description : String
  url : String
deriving DecidableEq

/-- Model of `JobPosting.to_dict` (`job_scraper/scrapers/base.py`). -/
def JobPosting.to_dict (p : JobPosting DateTime) : FlatPosting :=
  ⟨p.title, p.company, p.location, p.publication_date.isoformat, p.description, p.url⟩

/-- Modelled from the spec: parsing one record of the JSON output file back
into a posting (the JSON layer itself round-trips the string dictionary
verbatim; the only non-identity step is re-parsing the ISO timestamp). -/
def postingOfDict (f : FlatPosting) : Option (JobPosting DateTime) :=
  match isoparse f.publication_date with
  | none => none
  | some t => some ⟨f.title, f.company, f.location, t, f.description, f.url⟩

/-- Index of the last occurrence of `c`, as in Python `str.rfind`. -/
def lastIdxOf (c : Char) : List Char → Option Nat
  | [] => none
  | a :: as =>
    match lastIdxOf c as with
    | some i => some (i + 1)
    | none => if a = c then some 0 else none

/-- Model of `os.path.splitext(path)[1]` (posix, CPython's `genericpath._splitext`):
the suffix from the last dot, provided it lies after the last separator and
the basename has a non-dot character before it. -/
def splitextExt (path : String) : String :=
  let cs := path.data
  let sepIndex : Int := match lastIdxOf '/' cs with | some i => (i : Int) | none => -1
  let dotIndex : Int := match lastIdxOf '.' cs with | some i => (i : Int) | none => -1
  if sepIndex < dotIndex then
    let between := (cs.drop (sepIndex + 1).toNat).take (dotIndex - sepIndex - 1).toNat
    if between.any (fun ch => ch != '.') then ⟨cs.drop dotIndex.toNat⟩ else ""
  else ""

/-- The CSV header / field set used by `write_output`. -/
def csvFieldnames : List String :=
  ["title", "company", "location", "publication_date", "description", "url"]

/-- What `write_output` writes to the file: a JSON array of the flat
key-value records, or CSV rows (with header) of the same field set.  The
textual rendering (`json.dump(..., indent=2)` / `csv.DictWriter`) is
external-library code and is left at the record level. -/
inductive WriteAction where
  | json (records : List FlatPosting) : WriteAction
  | csv (fieldnames : List String) (rows : List FlatPosting) : WriteAction
deriving DecidableEq

/-- Model of `write_output` (`cli.py`): dispatch on the lower-cased extension;
`.json` and `.csv` write, anything else raises `ValueError` before any file
is opened. -/
def write_output (jobs : List (JobPosting DateTime)) (path : String) :
    Except String WriteAction :=
  let ext := pyLower (splitextExt path)
  if ext = ".json" then Except.ok (WriteAction.json (jobs.map JobPosting.to_dict))
  else if ext = ".csv" then Except.ok (WriteAction.csv csvFieldnames (jobs.map JobPosting.to_dict))
  else Except.error ("Unsupported output format '" ++ ext ++ "'. Please use .json or .csv.")

/-! ## Concrete sample inputs used by witnesses and counterexamples -/

/-- A Muse item that qualifies under no filters: empty strings, a parsed
publication date of `0`. -/
def museJobA : MuseJob := ⟨"", "", [], some 0, "", ""⟩

/-- A Muse item whose only location name is `"Remote"`. -/
def remoteOnlyJob : MuseJob := ⟨"", "", ["Remote"], some 0, "", ""⟩

/-- A posting with the given date and empty text fields. -/
def datedPosting (d : Int) : JobPosting Int := ⟨"", "", "", d, "", ""⟩

/-- One Muse page holding three qualifying items. -/
def c1pages : List MuseResponse := [MuseResponse.ok 200 1 [museJobA, museJobA, museJobA]]

/-- A concrete posting with a component datetime, for the round-trip witness. -/
def c4posting : JobPosting DateTime :=
  ⟨"Engineer", "Acme", "NYC", ⟨2024, 3, 1, 12, 30, 45, 123456⟩, "desc", "https://x"⟩

end JobScraper

namespace JobScraper

/-! ## Digit-rendering lemmas for the ISO round trip -/

theorem digitVal_digitChar : ∀ d : Nat, d < 10 → digitVal (Nat.digitChar d) = some d := by
  decide

theorem val2_pad (n : Nat) (h : n < 100) :
    val2 (Nat.digitChar (n / 10 % 10)) (Nat.digitChar (n % 10)) = some n := by
  have h1 := digitVal_digitChar (n / 10 % 10) (Nat.mod_lt _ (by omega))
  have h2 := digitVal_digitChar (n % 10) (Nat.mod_lt _ (by omega))
  simp only [val2, h1, h2, Option.some.injEq]
  omega

theorem val4_pad (n : Nat) (h : n < 10000) :
    val4 (Nat.digitChar (n / 1000 % 10)) (Nat.digitChar (n / 100 % 10))
      (Nat.digitChar (n / 10 % 10)) (Nat.digitChar (n % 10)) = some n := by
  have h1 := digitVal_digitChar (n / 1000 % 10) (Nat.mod_lt _ (by omega))
  have h2 := digitVal_digitChar (n / 100 % 10) (Nat.mod_lt _ (by omega))
  have h3 := digitVal_digitChar (n / 10 % 10) (Nat.mod_lt _ (by omega))
  have h4 := digitVal_digitChar (n % 10) (Nat.mod_lt _ (by omega))
  simp only [val4, val2, h1, h2, h3, h4, Option.some.injEq]
  omega

theorem val6_pad (n : Nat) (h : n < 1000000) :
    val6 (Nat.digitChar (n / 100000 % 10)) (Nat.digitChar (n / 10000 % 10))
      (Nat.digitChar (n / 1000 % 10)) (Nat.digitChar (n / 100 % 10))
      (Nat.digitChar (n / 10 % 10)) (Nat.digitChar (n % 10)) = some n := by
  have h1 := digitVal_digitChar (n / 100000 % 10) (Nat.mod_lt _ (by omega))
  have h2 := digitVal_digitChar (n / 10000 % 10) (Nat.mod_lt _ (by omega))
  have h3 := digitVal_digitChar (n / 1000 % 10) (Nat.mod_lt _ (by omega))
  have h4 := digitVal_digitChar (n / 100 % 10) (Nat.mod_lt _ (by omega))
  have h5 := digitVal_digitChar (n / 10 % 10) (Nat.mod_lt _ (by omega))
  have h6 := digitVal_digitChar (n % 10) (Nat.mod_lt _ (by omega))
  simp only [val6, val2, h1, h2, h3, h4, h5, h6, Option.some.injEq]
  omega

/-- Parsing the `isoformat` rendering of a valid naive datetime recovers it. -/
theorem isoparse_isoformat (t : DateTime) (h : t.Valid) :
    isoparse t.isoformat = some t := by
  obtain ⟨y, mo, d, hh, mi, s, u⟩ := t
  obtain ⟨hy1, hy2, hm1, hm2, hd1, hd2, hh2, hmi2, hs2, hu2⟩ := h
  have by2 : y ≤ 9999 := hy2
  have bm2 : mo ≤ 12 := hm2
  have bd2 : d ≤ 31 := hd2
  have bh2 : hh ≤ 23 := hh2
  have bmi2 : mi ≤ 59 := hmi2
  have bs2 : s ≤ 59 := hs2
  have bu2 : u ≤ 999999 := hu2
  simp only [isoparse, DateTime.isoformat, pad4, pad2, pad6]
  by_cases hu : u = 0
  · rw [if_pos hu]
    simp only [List.cons_append, List.nil_append, List.append_nil, isoparseChars]
    rw [if_pos (by decide)]
    rw [val4_pad y (by omega), val2_pad mo (by omega), val2_pad d (by omega),
      val2_pad hh (by omega), val2_pad mi (by omega), val2_pad s (by omega)]
    rw [hu]
  · rw [if_neg hu]
    simp only [List.cons_append, List.nil_append, List.append_nil, isoparseChars]
    rw [if_pos (by decide)]
    rw [val4_pad y (by omega), val2_pad mo (by omega), val2_pad d (by omega),
      val2_pad hh (by omega), val2_pad mi (by omega), val2_pad s (by omega)]
    simp only [if_true, val6_pad u (by omega)]

/-! ## C4: serialization round trip -/

/-- Claim C4 — Serializing a `JobPosting` to its flat key-value form
(`to_dict`) and parsing the JSON output back reproduces the same title,
company, location, description and url strings, and the ISO-8601 timestamp
string parses back to the original naive datetime. -/
theorem C4_roundtrip (p : JobPosting DateTime) (h : p.publication_date.Valid) :
    (p.to_dict.title = p.title ∧ p.to_dict.company = p.company ∧
     p.to_dict.location = p.location ∧ p.to_dict.description = p.description ∧
     p.to_dict.url = p.url) ∧
    isoparse p.to_dict.publication_date = some p.publication_date ∧
    postingOfDict p.to_dict = some p := by
  refine ⟨⟨rfl, rfl, rfl, rfl, rfl⟩, isoparse_isoformat _ h, ?_⟩
  simp only [postingOfDict, JobPosting.to_dict]
  rw [isoparse_isoformat _ h]

/-- Witness for C4: a concrete posting (with microseconds) round-trips. -/
theorem C4_roundtrip_witness :
    postingOfDict (JobPosting.to_dict c4posting) = some c4posting :=
  (C4_roundtrip c4posting (by decide)).2.2

/-! ## C5: orchestrator sort -/

/-- Claim C5 — The orchestrator sorts the collected result sequence by
`publication_date` in descending order before handing it to the output sink:
for every input list, the output list is a permutation of it in which every
element's `publication_date` is ≥ the next element's; postings dated
`[2024-01-01, 2024-03-01, 2024-02-01]` are emitted as
`[2024-03-01, 2024-02-01, 2024-01-01]`. -/
theorem C5_sort_descending :
    (∀ l : List (JobPosting Int), (sortJobsDesc l).Perm l) ∧
    (∀ l : List (JobPosting Int),
      List.Chain' (fun a b => b.publication_date ≤ a.publication_date) (sortJobsDesc l)) ∧
    sortJobsDesc [datedPosting 20240101, datedPosting 20240301, datedPosting 20240201] =
      [datedPosting 20240301, datedPosting 20240201, datedPosting 20240101] := by
  refine ⟨fun l => List.perm_insertionSort _ l, fun l => ?_, by decide⟩
  exact List.chain'_iff_pairwise.mpr (List.sorted_insertionSort _ l)

/-! ## C6: The Muse location filter -/

/-- Claim C6 — In the Muse adapter, an item passes the location filter iff the
filter text is a case-insensitive substring of at least one of the item's
location names, or at least one location name contains one of the fixed
remote-work keywords (`"remote"`, `"flexible"`); a posting tagged only
`"Remote"` passes a filter of `"Boston, MA"` (also through the full search),
and `"New York, NY"` matches the filter value `"new york"`. -/
theorem C6_location_filter :
    (∀ (location : String) (locNames : List String),
      museLocPass location locNames = true ↔
        ((∃ n ∈ locNames, pyIn (pyLower location) (pyLower n) = true) ∨
         (∃ n ∈ locNames, ∃ k ∈ remoteKeywords, pyIn k (pyLower n) = true))) ∧
    museLocPass "Boston, MA" ["Remote"] = true ∧
    museLocPass "new york" ["New York, NY"] = true ∧
    museSearch 0 (some "Boston, MA") none none id [MuseResponse.ok 200 1 [remoteOnlyJob]] =
      [⟨"", "", "Remote", 0, "", ""⟩] := by
  refine ⟨fun location locNames => ?_, by decide, by decide, by decide⟩
  simp [museLocPass, List.any_eq_true]

/-! ## C7: registry lookup -/

/-- Claim C7 — Registry lookup is case-insensitive: `get_scraper s` returns the
registered adapter class when `lowercase s` is a registered identifier, and
otherwise fails with a `KeyError` whose message lists the valid identifiers
(the registry itself is a static constant). -/
theorem C7_registry_lookup :
    (∀ (s : String) (cls : ScraperClass),
      SCRAPERS.lookup (pyLower s) = some cls → get_scraper s = Except.ok cls) ∧
    (∀ s : String, SCRAPERS.lookup (pyLower s) = none →
      get_scraper s = Except.error ("Unknown site '" ++ s ++ "'. Available sites: " ++
        String.intercalate ", " (SCRAPERS.map Prod.fst))) := by
  constructor
  · intro s cls h
    simp only [get_scraper]
    rw [h]
  · intro s h
    simp only [get_scraper]
    rw [h]

/-- Witness for C7: a mixed-case known identifier succeeds; an unknown
identifier fails with the message listing the four registered sites. -/
theorem C7_registry_lookup_witness :
    get_scraper "TheMuse" = Except.ok ScraperClass.themuse ∧
    get_scraper "glassdoor" =
      Except.error "Unknown site 'glassdoor'. Available sites: themuse, indeed, linkedin, remotive" :=
  ⟨C7_registry_lookup.1 "TheMuse" ScraperClass.themuse (by decide),
   C7_registry_lookup.2 "glassdoor" (by decide)⟩

/-! ## C8: unsupported adapters -/

/-- Claim C8 — For every combination of arguments, calling `search` on either
unsupported adapter (indeed, linkedin) immediately signals the
unsupported-operation failure with its human-readable message, returns no
postings, and performs zero network calls (the result does not depend on the
network capability handed to the adapter). -/
theorem C8_unsupported_adapters :
    ∀ (Net : Type) (f g : Net) (query : String) (location : Option String)
      (days maxResults : Option Int),
      indeedSearch f query location days maxResults = Except.error indeedMessage ∧
      linkedinSearch f query location days maxResults = Except.error linkedinMessage ∧
      indeedSearch f query location days maxResults =
        indeedSearch g query location days maxResults ∧
      linkedinSearch f query location days maxResults =
        linkedinSearch g query location days maxResults :=
  fun _ _ _ _ _ _ _ => ⟨rfl, rfl, rfl, rfl⟩

/-! ## C9: output sink format dispatch -/

/-- Claim C9 — For every destination path whose lower-cased extension is
neither `.json` nor `.csv`, `write_output` fails with an unsupported-format
error and performs no write; a `.json` path writes the JSON array of the
flat key-value form, and a `.csv` path writes CSV rows with the fixed header
field set. -/
theorem C9_write_output_dispatch (jobs : List (JobPosting DateTime)) (path : String) :
    (pyLower (splitextExt path) ≠ ".json" → pyLower (splitextExt path) ≠ ".csv" →
      write_output jobs path =
        Except.error ("Unsupported output format '" ++ pyLower (splitextExt path) ++
          "'. Please use .json or .csv.") ∧
      ∀ a : WriteAction, write_output jobs path ≠ Except.ok a) ∧
    (pyLower (splitextExt path) = ".json" →
      write_output jobs path = Except.ok (WriteAction.json (jobs.map JobPosting.to_dict))) ∧
    (pyLower (splitextExt path) = ".csv" →
      write_output jobs path =
        Except.ok (WriteAction.csv csvFieldnames (jobs.map JobPosting.to_dict))) := by
  refine ⟨fun h1 h2 => ?_, fun h => ?_, fun h => ?_⟩
  · unfold write_output
    rw [if_neg h1, if_neg h2]
    exact ⟨rfl, fun a h => by cases h⟩
  · unfold write_output
    rw [if_pos h]
  · unfold write_output
    rw [if_neg (by rw [h]; decide), if_pos h]

/-- Witness for C9: `out.txt` is rejected with the error message (no write),
`jobs.json` produces the JSON array, `report.CSV` produces the CSV rows. -/
theorem C9_write_output_dispatch_witness :
    write_output [] "out.txt" =
      Except.error "Unsupported output format '.txt'. Please use .json or .csv." ∧
    write_output [] "jobs.json" = Except.ok (WriteAction.json []) ∧
    write_output [] "report.CSV" = Except.ok (WriteAction.csv csvFieldnames []) :=
  ⟨((C9_write_output_dispatch [] "out.txt").1 (by decide) (by decide)).1,
   (C9_write_output_dispatch [] "jobs.json").2.1 (by decide),
   (C9_write_output_dispatch [] "report.CSV").2.2 (by decide)⟩

/-! ## Characterization of the item loops (C1) -/

theorem musePageItems_none_eq {now : Int} {loc : Option String} {days : Option Int}
    {sh : String → String} :
    ∀ (jobs : List MuseJob) (results : List (JobPosting Int)),
      musePageItems now loc days none sh jobs results =
        .inl (results ++ museItems now loc days sh jobs) := by
  intro jobs
  induction jobs with
  | nil =>
    intro results
    simp [musePageItems, museItems]
  | cons job rest ih =>
    intro results
    cases hfi : museFilterItem now loc days sh job with
    | none =>
      simp only [musePageItems, hfi, museItems, List.filterMap_cons]
      simpa only [museItems] using ih results
    | some p =>
      simp only [musePageItems, hfi, museItems, List.filterMap_cons]
      simpa only [museItems, List.append_assoc, List.singleton_append] using ih (results ++ [p])

theorem musePageItems_some_eq {now : Int} {loc : Option String} {days : Option Int}
    {sh : String → String} (m : Int) :
    ∀ (jobs : List MuseJob) (results : List (JobPosting Int)),
      (results.length : Int) < m →
      (((results.length : Int) + (museItems now loc days sh jobs).length ≥ m ∧
        musePageItems now loc days (some m) sh jobs results =
          .inr ((results ++ museItems now loc days sh jobs).take m.toNat)) ∨
       ((results.length : Int) + (museItems now loc days sh jobs).length < m ∧
        musePageItems now loc days (some m) sh jobs results =
          .inl (results ++ museItems now loc days sh jobs))) := by
  intro jobs
  induction jobs with
  | nil =>
    intro results h
    right
    refine ⟨by simpa [museItems] using h, by simp [musePageItems, museItems]⟩
  | cons job rest ih =>
    intro results h
    cases hfi : museFilterItem now loc days sh job with
    | none =>
      simpa only [musePageItems, hfi, museItems, List.filterMap_cons] using ih results h
    | some p =>
      have hlen1 : ((results ++ [p]).length : Int) = (results.length : Int) + 1 := by
        simp [List.length_append]
      by_cases hge : ((results ++ [p]).length : Int) ≥ m
      · have hm : m.toNat = results.length + 1 := by omega
        left
        constructor
        · simp only [museItems, List.filterMap_cons, hfi, List.length_cons]
          push_cast
          omega
        · simp only [musePageItems, hfi]
          rw [if_pos hge]
          simp only [museItems, List.filterMap_cons, hfi]
          rw [hm, List.take_append_eq_append_take,
            List.take_of_length_le (by omega : results.length ≤ results.length + 1),
            (by omega : results.length + 1 - results.length = 1)]
          simp
      · have h' : ((results ++ [p]).length : Int) < m := by omega
        rcases ih (results ++ [p]) h' with ⟨hc, heq⟩ | ⟨hc, heq⟩
        · left
          constructor
          · rw [hlen1] at hc
            simp only [museItems, List.filterMap_cons, hfi, List.length_cons] at hc ⊢
            push_cast at hc ⊢
            omega
          · simp only [musePageItems, hfi]
            rw [if_neg hge, heq]
            simp only [museItems, List.filterMap_cons, hfi, List.append_assoc,
              List.singleton_append]
        · right
          constructor
          · rw [hlen1] at hc
            simp only [museItems, List.filterMap_cons, hfi, List.length_cons] at hc ⊢
            push_cast at hc ⊢
            omega
          · simp only [musePageItems, hfi]
            rw [if_neg hge, heq]
            simp only [museItems, List.filterMap_cons, hfi, List.append_assoc,
              List.singleton_append]

theorem musePages_none_extends {now : Int} {loc : Option String} {days : Option Int}
    {sh : String → String} :
    ∀ (pages : List MuseResponse) (page : Nat) (tp : Option Nat)
      (results : List (JobPosting Int)),
      ∃ t, musePages now loc days none sh pages page tp results = results ++ t := by
  intro pages
  induction pages with
  | nil =>
    intro page tp results
    exact ⟨[], by simp [musePages]⟩
  | cons resp rest ih =>
    intro page tp results
    by_cases hpast : musePastLastPage tp page = true
    · refine ⟨[], ?_⟩
      cases resp <;> simp only [musePages] <;> rw [if_pos hpast] <;> simp
    · cases resp with
      | exn =>
        refine ⟨[], ?_⟩
        simp only [musePages]
        rw [if_neg hpast]
        simp
      | ok status pc jobs =>
        by_cases hst : status ≠ 200
        · refine ⟨[], ?_⟩
          simp only [musePages]
          rw [if_neg hpast, if_pos hst]
          simp
        · by_cases hj : jobs = []
          · refine ⟨[], ?_⟩
            simp only [musePages]
            rw [if_neg hpast, if_neg hst, if_pos hj]
            simp
          · obtain ⟨t, ht⟩ := ih (page + 1) (some (tp.getD pc))
              (results ++ museItems now loc days sh jobs)
            refine ⟨museItems now loc days sh jobs ++ t, ?_⟩
            simp only [musePages]
            rw [if_neg hpast, if_neg hst, if_neg hj]
            simp only [musePageItems_none_eq]
            rw [ht, List.append_assoc]

theorem musePages_take_eq {now : Int} {loc : Option String} {days : Option Int}
    {sh : String → String} (m : Int) :
    ∀ (pages : List MuseResponse) (page : Nat) (tp : Option Nat)
      (results : List (JobPosting Int)),
      (results.length : Int) < m →
      musePages now loc days (some m) sh pages page tp results =
        (musePages now loc days none sh pages page tp results).take m.toNat := by
  intro pages
  induction pages with
  | nil =>
    intro page tp results h
    simp only [musePages]
    rw [List.take_of_length_le (by omega : results.length ≤ m.toNat)]
  | cons resp rest ih =>
    intro page tp results h
    have htake : results.take m.toNat = results :=
      List.take_of_length_le (by omega : results.length ≤ m.toNat)
    by_cases hpast : musePastLastPage tp page = true
    · cases resp <;> simp only [musePages, if_pos hpast] <;> rw [htake]
    · cases resp with
      | exn =>
        simp only [musePages, if_neg hpast]
        rw [htake]
      | ok status pc jobs =>
        simp only [musePages, if_neg hpast]
        by_cases hst : status ≠ 200
        · simp only [if_pos hst]
          rw [htake]
        · simp only [if_neg hst]
          by_cases hj : jobs = []
          · simp only [if_pos hj]
            rw [htake]
          · simp only [if_neg hj]
            simp only [musePageItems_none_eq]
            rcases @musePageItems_some_eq now loc days sh m jobs results h with
              ⟨hge, heq⟩ | ⟨hlt, heq⟩
            · simp only [heq]
              obtain ⟨t, ht⟩ := musePages_none_extends rest (page + 1) (some (tp.getD pc))
                (results ++ museItems now loc days sh jobs)
              have hle : m.toNat ≤ (results ++ museItems now loc days sh jobs).length := by
                simp only [List.length_append]
                omega
              rw [ht, List.take_append_of_le_length hle]
            · simp only [heq]
              exact ih (page + 1) (some (tp.getD pc)) _
                (by simp only [List.length_append]; push_cast; omega)

theorem museSearch_take (now : Int) (loc : Option String) (days : Option Int)
    (sh : String → String) (m : Int) (hm : 0 < m) (pages : List MuseResponse) :
    museSearch now loc days (some m) sh pages =
      (museSearch now loc days none sh pages).take m.toNat :=
  musePages_take_eq m pages 1 none [] (by simpa using hm)

theorem remotiveLoop_none_eq {now : Int} {loc : Option String} {days : Option Int}
    {sh : String → String} :
    ∀ (jobs : List RemotiveJob) (results : List (JobPosting Int)),
      remotiveLoop now loc days none sh jobs results =
        results ++ remotiveItems now loc days sh jobs := by
  intro jobs
  induction jobs with
  | nil =>
    intro results
    simp [remotiveLoop, remotiveItems]
  | cons job rest ih =>
    intro results
    cases hfi : remotiveFilterItem now loc days sh job with
    | none =>
      simp only [remotiveLoop, hfi, remotiveItems, List.filterMap_cons]
      simpa only [remotiveItems] using ih results
    | some p =>
      simp only [remotiveLoop, hfi, remotiveItems, List.filterMap_cons]
      simpa only [remotiveItems, List.append_assoc, List.singleton_append] using
        ih (results ++ [p])

theorem remotiveLoop_some_eq {now : Int} {loc : Option String} {days : Option Int}
    {sh : String → String} (m : Int) :
    ∀ (jobs : List RemotiveJob) (results : List (JobPosting Int)),
      (results.length : Int) < m →
      remotiveLoop now loc days (some m) sh jobs results =
        (results ++ remotiveItems now loc days sh jobs).take m.toNat := by
  intro jobs
  induction jobs with
  | nil =>
    intro results h
    have e : remotiveItems now loc days sh ([] : List RemotiveJob) = [] := rfl
    rw [e, List.append_nil, List.take_of_length_le (by omega : results.length ≤ m.toNat)]
    simp [remotiveLoop]
  | cons job rest ih =>
    intro results h
    cases hfi : remotiveFilterItem now loc days sh job with
    | none =>
      simpa only [remotiveLoop, hfi, remotiveItems, List.filterMap_cons] using ih results h
    | some p =>
      have hlen1 : ((results ++ [p]).length : Int) = (results.length : Int) + 1 := by
        simp [List.length_append]
      by_cases hge : ((results ++ [p]).length : Int) ≥ m
      · have hm : m.toNat = results.length + 1 := by omega
        simp only [remotiveLoop, hfi]
        rw [if_pos hge]
        simp only [remotiveItems, List.filterMap_cons, hfi]
        rw [hm, List.take_append_eq_append_take,
          List.take_of_length_le (by omega : results.length ≤ results.length + 1),
          (by omega : results.length + 1 - results.length = 1)]
        simp
      · have h' : ((results ++ [p]).length : Int) < m := by omega
        simp only [remotiveLoop, hfi]
        rw [if_neg hge, ih (results ++ [p]) h']
        simp only [remotiveItems, List.filterMap_cons, hfi, List.append_assoc,
          List.singleton_append]

theorem remotiveSearch_take (now : Int) (loc : Option String) (days : Option Int)
    (sh : String → String) (m : Int) (hm : 0 < m) (resp : RemotiveResponse) :
    remotiveSearch now loc days (some m) sh resp =
      (remotiveSearch now loc days none sh resp).take m.toNat := by
  cases resp with
  | exn => simp [remotiveSearch]
  | ok status jobs =>
    simp only [remotiveSearch]
    by_cases hst : status ≠ 200
    · simp only [if_pos hst, List.take_nil]
    · simp only [if_neg hst]
      rw [remotiveLoop_some_eq m jobs [] (by simpa using hm), remotiveLoop_none_eq]

/-! ## Date-window invariants of the two real adapters (C3) -/

theorem withinDays_sub_lt (now date D : Int) (h : withinDays now date (some D) = true) :
    now - date < 86400 * D := by
  simp only [withinDays, decide_eq_true_eq] at h
  rw [Int.fdiv_eq_ediv _ (by omega : (0:Int) ≤ 86400)] at h
  have h2 := (Int.ediv_lt_iff_lt_mul (show (0:Int) < 86400 by omega)).mp h
  omega

theorem museFilterItem_withinDays (now : Int) (loc : Option String) (days : Option Int)
    (sh : String → String) (job : MuseJob) (p : JobPosting Int)
    (h : museFilterItem now loc days sh job = some p) :
    withinDays now p.publication_date days = true := by
  rcases loc with _ | l <;> rcases hpd : job.pubDate with _ | d <;>
    unfold museFilterItem at h <;> rw [hpd] at h
  · exact absurd h (by simp)
  · have h2 : (if ¬ withinDays now d days then none
        else some (museMkPosting sh job d)) = some p := h
    by_cases hw : withinDays now d days = true
    · rw [if_neg (not_not_intro hw)] at h2
      injection h2 with h3
      subst h3
      exact hw
    · rw [if_pos hw] at h2
      cases h2
  · exact absurd h (by simp)
  · have h2 : (if ¬ withinDays now d days then none
        else if l ≠ "" ∧ ¬ museLocPass l job.locationNames then none
        else some (museMkPosting sh job d)) = some p := h
    by_cases hw : withinDays now d days = true
    · rw [if_neg (not_not_intro hw)] at h2
      by_cases hl : l ≠ "" ∧ ¬ museLocPass l job.locationNames
      · rw [if_pos hl] at h2
        cases h2
      · rw [if_neg hl] at h2
        injection h2 with h3
        subst h3
        exact hw
    · rw [if_pos hw] at h2
      cases h2

theorem remotiveFilterItem_withinDays (now : Int) (loc : Option String) (days : Option Int)
    (sh : String → String) (job : RemotiveJob) (p : JobPosting Int)
    (h : remotiveFilterItem now loc days sh job = some p) :
    withinDays now p.publication_date days = true := by
  rcases loc with _ | l <;> rcases hpd : job.pubDate with _ | d <;>
    unfold remotiveFilterItem at h <;> rw [hpd] at h
  · exact absurd h (by simp)
  · have h2 : (if ¬ withinDays now d days then none
        else some (remotiveMkPosting sh job d)) = some p := h
    by_cases hw : withinDays now d days = true
    · rw [if_neg (not_not_intro hw)] at h2
      injection h2 with h3
      subst h3
      exact hw
    · rw [if_pos hw] at h2
      cases h2
  · exact absurd h (by simp)
  · have h2 : (if ¬ withinDays now d days then none
        else if l ≠ "" ∧ ¬ pyIn (pyLower l) (pyLower (pyStrip job.candidateRequiredLocation))
          then none
        else some (remotiveMkPosting sh job d)) = some p := h
    by_cases hw : withinDays now d days = true
    · rw [if_neg (not_not_intro hw)] at h2
      by_cases hl : l ≠ "" ∧ ¬ pyIn (pyLower l) (pyLower (pyStrip job.candidateRequiredLocation))
      · rw [if_pos hl] at h2
        cases h2
      · rw [if_neg hl] at h2
        injection h2 with h3
        subst h3
        exact hw
    · rw [if_pos hw] at h2
      cases h2

theorem musePageItems_forall {now : Int} {loc : Option String} {days maxR : Option Int}
    {sh : String → String} {P : JobPosting Int → Prop}
    (hP : ∀ job p, museFilterItem now loc days sh job = some p → P p) :
    ∀ (jobs : List MuseJob) (results : List (JobPosting Int)),
      (∀ p ∈ results, P p) →
      ∀ p ∈ Sum.elim id id (musePageItems now loc days maxR sh jobs results), P p := by
  intro jobs
  induction jobs with
  | nil =>
    intro results hres p hp
    simp only [musePageItems, Sum.elim_inl, id] at hp
    exact hres p hp
  | cons job rest ih =>
    intro results hres p hp
    cases hfi : museFilterItem now loc days sh job with
    | none =>
      simp only [musePageItems, hfi] at hp
      exact ih results hres p hp
    | some q =>
      have hres' : ∀ x ∈ results ++ [q], P x := by
        intro x hx
        rcases List.mem_append.mp hx with hx | hx
        · exact hres x hx
        · rw [List.mem_singleton.mp hx]
          exact hP job q hfi
      cases maxR with
      | none =>
        simp only [musePageItems, hfi] at hp
        exact ih _ hres' p hp
      | some m =>
        simp only [musePageItems, hfi] at hp
        by_cases hlen : ((results ++ [q]).length : Int) ≥ m
        · rw [if_pos hlen] at hp
          simp only [Sum.elim_inr, id] at hp
          exact hres' p hp
        · rw [if_neg hlen] at hp
          exact ih _ hres' p hp

theorem musePages_forall {now : Int} {loc : Option String} {days maxR : Option Int}
    {sh : String → String} {P : JobPosting Int → Prop}
    (hP : ∀ job p, museFilterItem now loc days sh job = some p → P p) :
    ∀ (pages : List MuseResponse) (page : Nat) (tp : Option Nat)
      (results : List (JobPosting Int)),
      (∀ p ∈ results, P p) →
      ∀ p ∈ musePages now loc days maxR sh pages page tp results, P p := by
  intro pages
  induction pages with
  | nil =>
    intro page tp results hres p hp
    simp only [musePages] at hp
    exact hres p hp
  | cons resp rest ih =>
    intro page tp results hres p hp
    cases resp with
    | exn =>
      simp only [musePages] at hp
      by_cases hpast : musePastLastPage tp page = true
      · rw [if_pos hpast] at hp
        exact hres p hp
      · rw [if_neg hpast] at hp
        exact hres p hp
    | ok status pc jobs =>
      simp only [musePages] at hp
      by_cases hpast : musePastLastPage tp page = true
      · rw [if_pos hpast] at hp
        exact hres p hp
      · rw [if_neg hpast] at hp
        by_cases hst : status ≠ 200
        · rw [if_pos hst] at hp
          exact hres p hp
        · rw [if_neg hst] at hp
          by_cases hj : jobs = []
          · rw [if_pos hj] at hp
            exact hres p hp
          · rw [if_neg hj] at hp
            have hall := @musePageItems_forall now loc days maxR sh P hP jobs results hres
            cases hpi : musePageItems now loc days maxR sh jobs results with
            | inl results' =>
              rw [hpi] at hp hall
              have hp2 : p ∈ musePages now loc days maxR sh rest (page + 1)
                  (some (tp.getD pc)) results' := hp
              have hall2 : ∀ x ∈ results', P x := fun x hx => hall x hx
              exact ih _ _ _ hall2 p hp2
            | inr res =>
              rw [hpi] at hp hall
              have hp2 : p ∈ res := hp
              exact hall p hp2

theorem remotiveLoop_forall {now : Int} {loc : Option String} {days maxR : Option Int}
    {sh : String → String} {P : JobPosting Int → Prop}
    (hP : ∀ job p, remotiveFilterItem now loc days sh job = some p → P p) :
    ∀ (jobs : List RemotiveJob) (results : List (JobPosting Int)),
      (∀ p ∈ results, P p) →
      ∀ p ∈ remotiveLoop now loc days maxR sh jobs results, P p := by
  intro jobs
  induction jobs with
  | nil =>
    intro results hres p hp
    simp only [remotiveLoop] at hp
    exact hres p hp
  | cons job rest ih =>
    intro results hres p hp
    cases hfi : remotiveFilterItem now loc days sh job with
    | none =>
      simp only [remotiveLoop, hfi] at hp
      exact ih results hres p hp
    | some q =>
      have hres' : ∀ x ∈ results ++ [q], P x := by
        intro x hx
        rcases List.mem_append.mp hx with hx | hx
        · exact hres x hx
        · rw [List.mem_singleton.mp hx]
          exact hP job q hfi
      cases maxR with
      | none =>
        simp only [remotiveLoop, hfi] at hp
        exact ih _ hres' p hp
      | some m =>
        simp only [remotiveLoop, hfi] at hp
        by_cases hlen : ((results ++ [q]).length : Int) ≥ m
        · rw [if_pos hlen] at hp
          exact hres' p hp
        · rw [if_neg hlen] at hp
          exact ih _ hres' p hp

/-! ## C3: the days window -/

/-- Claim C3 — For every `days = D > 0`, no posting returned by either real
adapter has a `publication_date` older than `now − D` days (every returned
posting satisfies `now − publication_date < 86400·D` seconds); `days = None`
disables the filter entirely, and the CLI caller maps a literal `0` to
`None` before invoking the adapter. -/
theorem C3_days_filter (sh : String → String) (now : Int) (loc : Option String) (D : Int)
    (maxR : Option Int) (_hD : 0 < D) :
    (∀ (pages : List MuseResponse) (p : JobPosting Int),
      p ∈ museSearch now loc (some D) maxR sh pages →
        now - p.publication_date < 86400 * D) ∧
    (∀ (resp : RemotiveResponse) (p : JobPosting Int),
      p ∈ remotiveSearch now loc (some D) maxR sh resp →
        now - p.publication_date < 86400 * D) ∧
    (∀ date : Int, withinDays now date none = true) ∧
    cliNormalizeDays 0 = none := by
  refine ⟨fun pages p hp => ?_, fun resp p hp => ?_, fun date => rfl, rfl⟩
  · refine withinDays_sub_lt now p.publication_date D ?_
    exact musePages_forall (museFilterItem_withinDays now loc (some D) sh) pages 1 none []
      (by simp) p hp
  · refine withinDays_sub_lt now p.publication_date D ?_
    cases resp with
    | exn => cases hp
    | ok status jobs =>
      simp only [remotiveSearch] at hp
      by_cases hst : status ≠ 200
      · rw [if_pos hst] at hp
        cases hp
      · rw [if_neg hst] at hp
        exact remotiveLoop_forall (remotiveFilterItem_withinDays now loc (some D) sh) jobs []
          (by simp) p hp

/-- Witness for C3: with `now = 50000` and a one-day window, the posting the
Muse model returns for a job published at time `0` is within the window. -/
theorem C3_days_filter_witness :
    (50000 : Int) - (datedPosting 0).publication_date < 86400 * 1 :=
  (C3_days_filter id 50000 none 1 none (by decide)).1
    [MuseResponse.ok 200 1 [museJobA]] (datedPosting 0) (by decide)

/-! ## C10: future-dated postings and the days filter -/

/-- Claim C10 — For every positive `days` value `D` and every publication date
strictly later than the current wall-clock time, `_within_days(date, D)`
returns `True`: future-dated postings are never excluded, for any `D`. -/
theorem C10_future_dates_pass (now date D : Int) (hD : 0 < D) (hf : now < date) :
    withinDays now date (some D) = true := by
  simp only [withinDays, decide_eq_true_eq]
  rw [Int.fdiv_eq_ediv _ (by omega : (0:Int) ≤ 86400)]
  have h := Int.ediv_neg' (show now - date < 0 by omega) (show (0:Int) < 86400 by omega)
  omega

/-- Witness for C10: a posting dated one second in the future passes a
one-day window. -/
theorem C10_future_dates_pass_witness : withinDays 0 1 (some 1) = true :=
  C10_future_dates_pass 0 1 1 (by decide) (by decide)

/-! ## C1: the max_results cap -/

/-- Claim C1 (amended) — For every `max_results = M ≥ 1`, each adapter's result
is the length-`M` prefix of the uncapped run: its length is ≤ M, and exactly
M whenever the uncapped run yields at least M qualifying postings; once M
postings have been collected mid-page, the Muse adapter returns immediately,
and its result does not depend on any later page.  (For `M ≤ 0` the cap
check, which runs only after an item is appended, lets one posting through —
see the counterexample.) -/
theorem C1_max_results_cap (sh : String → String) (now : Int) (loc : Option String)
    (days : Option Int) (m : Int) (hm : 0 < m) :
    (∀ pages, museSearch now loc days (some m) sh pages =
      (museSearch now loc days none sh pages).take m.toNat) ∧
    (∀ pages, (museSearch now loc days (some m) sh pages).length ≤ m.toNat) ∧
    (∀ pages, m.toNat ≤ (museSearch now loc days none sh pages).length →
      (museSearch now loc days (some m) sh pages).length = m.toNat) ∧
    (∀ (pageCount : Nat) (jobs : List MuseJob) (rest rest2 : List MuseResponse),
      jobs ≠ [] → m.toNat ≤ (museItems now loc days sh jobs).length →
      museSearch now loc days (some m) sh (MuseResponse.ok 200 pageCount jobs :: rest) =
        museSearch now loc days (some m) sh (MuseResponse.ok 200 pageCount jobs :: rest2)) ∧
    (∀ resp, remotiveSearch now loc days (some m) sh resp =
      (remotiveSearch now loc days none sh resp).take m.toNat) ∧
    (∀ resp, (remotiveSearch now loc days (some m) sh resp).length ≤ m.toNat) := by
  refine ⟨museSearch_take now loc days sh m hm, fun pages => ?_, fun pages hlen => ?_,
    fun pageCount jobs rest rest2 hj hM => ?_, remotiveSearch_take now loc days sh m hm,
    fun resp => ?_⟩
  · rw [museSearch_take now loc days sh m hm pages]
    exact List.length_take_le _ _
  · rw [museSearch_take now loc days sh m hm pages]
    exact List.length_take_of_le hlen
  · simp only [museSearch, musePages,
      if_neg (by decide : ¬ musePastLastPage none 1 = true),
      if_neg (by decide : ¬ (200 : Nat) ≠ 200), if_neg hj]
    rcases @musePageItems_some_eq now loc days sh m jobs [] (by simpa using hm) with
      ⟨hge, heq⟩ | ⟨hlt, heq⟩
    · simp only [heq]
    · exfalso
      simp only [List.length_nil] at hlt
      omega
  · rw [remotiveSearch_take now loc days sh m hm resp]
    exact List.length_take_le _ _

/-- Counterexample to C1 as stated: with `max_results = 0` the Muse adapter
returns one posting, because the `fetched >= max_results` test only runs
after an item has been appended; so "length ≤ M" fails at `M = 0`. -/
theorem C1_zero_cap_counterexample :
    ¬ (museSearch 0 none none (some 0) id [MuseResponse.ok 200 1 [museJobA]]).length ≤ 0 := by
  decide

/-- Witness for C1: with a page of three qualifying items and `M = 2`, the
capped run is the two-element prefix of the uncapped run. -/
theorem C1_max_results_cap_witness :
    museSearch 0 none none (some 2) id c1pages =
      (museSearch 0 none none none id c1pages).take (2 : Int).toNat :=
  (C1_max_results_cap id 0 none none 2 (by decide)).1 c1pages

/-! ## C2: transport/HTTP failure handling -/

/-- On a failing response the Muse page loop stops, so pages from the failing
one onwards contribute nothing: the run equals the run on the pages before
the failure. -/
theorem musePages_failing_drop {now : Int} {loc : Option String} {days maxR : Option Int}
    {sh : String → String} (r : MuseResponse) (hr : museFailing r = true) :
    ∀ (ps qs : List MuseResponse) (page : Nat) (tp : Option Nat)
      (results : List (JobPosting Int)),
      musePages now loc days maxR sh (ps ++ r :: qs) page tp results =
        musePages now loc days maxR sh ps page tp results := by
  intro ps
  induction ps with
  | nil =>
    intro qs page tp results
    simp only [List.nil_append]
    cases r with
    | exn =>
      by_cases hpast : musePastLastPage tp page = true <;>
        simp [musePages, hpast]
    | ok status pc jobs =>
      have hst : status ≠ 200 := by simpa [museFailing] using hr
      by_cases hpast : musePastLastPage tp page = true
      · simp [musePages, hpast]
      · simp only [musePages, if_neg hpast, if_pos hst]
  | cons resp ps' ih =>
    intro qs page tp results
    simp only [List.cons_append]
    by_cases hpast : musePastLastPage tp page = true
    · cases resp <;> simp only [musePages, if_pos hpast]
    · cases resp with
      | exn => simp only [musePages, if_neg hpast]
      | ok status pc jobs =>
        simp only [musePages, if_neg hpast]
        by_cases hst : status ≠ 200
        · simp only [if_pos hst]
        · simp only [if_neg hst]
          by_cases hj : jobs = []
          · simp only [if_pos hj]
          · simp only [if_neg hj]
            cases hpi : musePageItems now loc days maxR sh jobs results with
            | inl results' =>
              simp only [hpi]
              exact ih qs (page + 1) (some (tp.getD pc)) results'
            | inr res =>
              simp only [hpi]

/-- Claim C2 (amended) — An adapter never propagates a transport exception or a
non-2xx status.  The Remotive adapter (single request) returns the empty
list on every failing call.  The Muse adapter returns exactly the postings
collected from the pages before the failing request — the empty list when
the first request fails, but a partial (possibly non-empty) list when a
later page fails (see the counterexample). -/
theorem C2_soft_fail (sh : String → String) (now : Int) (loc : Option String)
    (days maxR : Option Int) :
    (∀ (ps : List MuseResponse) (r : MuseResponse) (qs : List MuseResponse),
      museFailing r = true →
      museSearch now loc days maxR sh (ps ++ r :: qs) =
        museSearch now loc days maxR sh ps) ∧
    (∀ (r : MuseResponse) (qs : List MuseResponse), museFailing r = true →
      museSearch now loc days maxR sh (r :: qs) = []) ∧
    remotiveSearch now loc days maxR sh RemotiveResponse.exn = [] ∧
    (∀ (status : Nat) (jobs : List RemotiveJob), status ≠ 200 →
      remotiveSearch now loc days maxR sh (RemotiveResponse.ok status jobs) = []) := by
  refine ⟨fun ps r qs hr => musePages_failing_drop r hr ps qs 1 none [],
    fun r qs hr => ?_, rfl, fun status jobs hst => ?_⟩
  · have h := @musePages_failing_drop now loc days maxR sh r hr [] qs 1 none []
    simpa [museSearch, musePages] using h
  · simp only [remotiveSearch, if_pos hst]

/-- Counterexample to C2 as stated: a transport error on page 2 (after a
successful page 1 whose body reports two pages) yields a one-element result,
not the empty list. -/
theorem C2_collected_so_far_counterexample :
    (museSearch 0 none none none id
      [MuseResponse.ok 200 2 [museJobA], MuseResponse.exn]).length = 1 := by
  decide

/-- Witness for C2: the run on a good page followed by a transport error
equals the run on the good page alone. -/
theorem C2_soft_fail_witness :
    museSearch 0 none none none id [MuseResponse.ok 200 2 [museJobA], MuseResponse.exn] =
      museSearch 0 none none none id [MuseResponse.ok 200 2 [museJobA]] :=
  (C2_soft_fail id 0 none none none).1 [MuseResponse.ok 200 2 [museJobA]]
    MuseResponse.exn [] (by decide)

end JobScraper
